import Mathlib

/-!
Verification development for the espnff package (`espnff/espnff.py`).

The repository's core is `League.power_rankings`: a win-matrix builder over each
team's margins of victory, a two-step dominance calculation, and a power-point
ranking.  The data-fetch layer classifies HTTP failures into three exception
kinds before any team is built.

`espnff/utils.py` (providing `two_step_dominance` and `power_points`) is not
among the provided sources; those two functions are modelled from the
specification, as marked on their doc comments.  Everything else is translated
from `espnff/espnff.py`.

Numeric conventions: ESPN scores are modelled as rationals (`ℚ`), win counts as
naturals.  Python list indexing that is only reached on well-formed data is
modelled with `List.getD`, with the out-of-range default never used under the
stated hypotheses.
-/

namespace Espnff

/-- A resolved opponent reference: after `League._fetch_teams` replaces the raw
opponent ids in `team.schedule` with `Team` instances, `power_rankings` and the
margin-of-victory pass only read the opponent's `team_id` and `scores`, so an
opponent is modelled by those two fields (Python's cyclic object references
cannot be represented directly as inductive data). -/
structure TeamRef where
  team_id : Nat
  scores : List ℚ
deriving DecidableEq, Repr

/-- A team after league construction: identity, per-week scores, resolved
per-week opponents, and per-week margins of victory (`Team.__init__` plus the
resolution and mov passes of `League._fetch_teams`). -/
structure Team where
  team_id : Nat
  scores : List ℚ
  schedule : List TeamRef
  mov : List ℚ
deriving DecidableEq, Repr

/-- The opponent-reference view of a team (how a team appears inside another
team's resolved schedule, and inside its own on a bye week). -/
def Team.toRef (t : Team) : TeamRef := ⟨t.team_id, t.scores⟩

/-- The reference used as the (never consulted) default for opponent lookup. -/
def noRef : TeamRef := ⟨0, []⟩

/-- The margin-of-victory pass of `League._fetch_teams`: for each week index of
the schedule (Python's `enumerate`),
`mov = team.scores[week] - opponent.scores[week]`.
Index access is total here via `getD`; on the well-formed data the source
assumes (score list at least as long as the schedule on both sides, schedule
fully indexed) the defaults are never consulted. -/
def computeMov (scores : List ℚ) (schedule : List TeamRef) : List ℚ :=
  (List.range schedule.length).map
    (fun w => scores.getD w 0 - (schedule.getD w noRef).scores.getD w 0)

/-- One iteration of the win-vector loop in `League.power_rankings`:
given the accumulated `wins` list and one `(mov, opponent)` pair,
`opp = int(opponent.team_id) - 1; if mov > 0: wins[opp] += 1`.
`List.set` out of range is a no-op; in the source the slot is always in range
because team ids lie in `1..32`. -/
def winStep (wins : List Nat) (p : ℚ × TeamRef) : List Nat :=
  if 0 < p.1 then
    wins.set (p.2.team_id - 1) (wins.getD (p.2.team_id - 1) 0 + 1)
  else wins

/-- The win-matrix row built by `League.power_rankings` for one team:
`wins = [0]*32`, then one `winStep` per element of
`zip(team.mov[:week], team.schedule[:week])`. -/
def winsFor (t : Team) (week : Nat) : List Nat :=
  (List.zip (t.mov.take week) (t.schedule.take week)).foldl winStep
    (List.replicate 32 0)

/-- The full win matrix: one row per team, in the order of the given team list
(`power_rankings` passes the teams sorted by ascending `team_id`). -/
def winMatrix (teams : List Team) (week : Nat) : List (List Nat) :=
  teams.map (fun t => winsFor t week)

/-- A `(mov, opponent)` pair that records a win against matrix slot `s`:
the margin is strictly positive and the opponent's id-derived slot is `s`. -/
def winAgainst (s : Nat) (p : ℚ × TeamRef) : Bool :=
  decide (0 < p.1) && decide (p.2.team_id - 1 = s)

/-- A team with both per-week lists cut to the shorter of the two — the list
`zip` in `power_rankings` silently reduces a length-mismatched team to this. -/
def truncTeam (t : Team) : Team :=
  { t with
    mov := t.mov.take (min t.mov.length t.schedule.length),
    schedule := t.schedule.take (min t.mov.length t.schedule.length) }

/-- Modelled from the spec: `two_step_dominance` is defined in `espnff/utils.py`,
which is absent from the provided sources.  Spec §4.2: first compute the
row-sum vector (the direct scores), then take the matrix-vector product of the
win matrix with that vector (the indirect scores), and add the two. -/
def two_step_dominance (X : List (List Nat)) : List Nat :=
  let direct := X.map List.sum
  let indirect := X.map (fun row => (List.zipWith (· * ·) row direct).sum)
  List.zipWith (· + ·) direct indirect

/-- The direct score of row `i` of a win matrix: the sum over all `j` of
`matrix[i][j]` (spec §4.2). -/
def direct_score (X : List (List Nat)) (i : Nat) : Nat :=
  (X.getD i []).sum

/-- The indirect score of row `i` of a win matrix: the sum over all `j` of
`matrix[i][j] * direct_score(j)` (spec §4.2). -/
def indirect_score (X : List (List Nat)) (i : Nat) : Nat :=
  ∑ j ∈ Finset.range X.length, (X.getD i []).getD j 0 * direct_score X j

/-- The dominance score of the `i`-th team of `teams` at week `week`, as
computed inside `power_rankings`: entry `i` of `two_step_dominance` applied to
the week's win matrix. -/
def dominanceScore (teams : List Team) (week : Nat) (i : Nat) : Nat :=
  (two_step_dominance (winMatrix teams week)).getD i 0

/-- Modelled from the spec: the points-per-game component of the power score
(spec §4.3), guarded against a zero denominator at week 0 ("points-per-game
denominator must not divide by zero"). -/
def avgPoints (t : Team) (week : Nat) : ℚ :=
  if week = 0 then 0 else (t.scores.take week).sum / (week : ℚ)

/-- Modelled from the spec: the blended power score of §4.3 — the dominance
score is the dominant signal and a normalized points-per-game term acts as a
fine-grained adjustment.  The exact weighting is an implementation choice per
§9; this development uses dominance plus points-per-game scaled by 1/1000. -/
def powerScore (dom : Nat) (t : Team) (week : Nat) : ℚ :=
  (dom : ℚ) + avgPoints t week / 1000

/-- The ordering used to rank entries: strictly larger power score first, ties
broken by ascending `team_id` (spec §4.3: "Ties in the combined score are
broken by team_id ascending"). -/
def rankLE (a b : ℚ × Team) : Bool :=
  decide (b.1 < a.1) || (decide (a.1 = b.1) && decide (a.2.team_id ≤ b.2.team_id))

/-- Modelled from the spec: `power_points` is defined in `espnff/utils.py`,
which is absent from the provided sources.  Spec §4.3: pair each team (in input
order, parallel to the dominance list) with its blended power score, then sort
descending by score with ties broken by ascending team id. -/
def power_points (dominance : List Nat) (teams : List Team) (week : Nat) :
    List (ℚ × Team) :=
  ((dominance.zip teams).map (fun p => (powerScore p.1 p.2 week, p.2))).mergeSort
    rankLE

/-- The comparison `sorted(self.teams, key=lambda x: x.team_id)` sorts by. -/
def byId (a b : Team) : Bool := decide (a.team_id ≤ b.team_id)

/-- The league after successful construction: `self.teams`. -/
structure League where
  teams : List Team
deriving DecidableEq, Repr

/-- `League.power_rankings(week)`, with the method's (read-only) use of object
state made explicit: the result pairs the league state after the call with the
returned ranking.  The body binds only locals (`win_matrix`, `teams_sorted`,
`wins`, `dominance_matrix`, `power_rank`) and assigns no attribute of `self`
or of any team, so the state component is the unchanged league. -/
def power_rankings (l : League) (week : Nat) : League × List (ℚ × Team) :=
  let teams_sorted := l.teams.mergeSort byId
  let dominance_matrix := two_step_dominance (winMatrix teams_sorted week)
  let power_rank := power_points dominance_matrix teams_sorted week
  (l, power_rank)

/-- The three exception classes raised by `League._fetch_league` (and
`League.scoreboard`) according to the HTTP status code. -/
inductive LeagueError
  | privateLeague (msg : String)
  | invalidLeague (msg : String)
  | unknownLeague (msg : String)
deriving DecidableEq, Repr

/-- Raw per-team data as consumed by `Team.__init__`/`Team._fetch_schedule`:
the team id, the per-week own scores, and the per-week raw opponent ids
(already extracted from the scheduleItems, before `League._fetch_teams`
replaces them with team references). -/
structure RawTeam where
  teamId : Nat
  scores : List ℚ
  schedule : List Nat
deriving DecidableEq, Repr

/-- The response of the leagueSettings endpoint as `League._fetch_league` reads
it: the status code, the error message `data['error'][0]['message']` consulted
on failure, and the team data `data['leaguesettings']['teams']` consulted on
success. -/
structure LeagueResponse where
  status : Nat
  errorMessage : String
  rawTeams : List RawTeam
deriving DecidableEq, Repr

/-- The opponent-resolution pass of `League._fetch_teams`: a raw opponent id is
replaced by the (reference view of the) league team carrying that id.  When no
team matches, the Python code leaves the raw id in the schedule; that is
modelled as a reference with the raw id and no scores. -/
def resolveOpponent (raw : List RawTeam) (oppId : Nat) : TeamRef :=
  match raw.find? (fun r => r.teamId == oppId) with
  | some r => ⟨r.teamId, r.scores⟩
  | none => ⟨oppId, []⟩

/-- `League._fetch_teams`: build each team, resolve its schedule, compute its
margins of victory, and sort the team list by ascending team id. -/
def fetch_teams (raw : List RawTeam) : List Team :=
  (raw.map (fun r =>
    let sched := r.schedule.map (resolveOpponent raw)
    { team_id := r.teamId, scores := r.scores, schedule := sched,
      mov := computeMov r.scores sched })).mergeSort byId

/-- `League._fetch_league` from the point the response is available: status 401
raises `PrivateLeagueException`, 404 raises `InvalidLeagueException`, any other
non-200 status raises `UnknownLeagueException('Unknown %s Error' % status)`,
and only a 200 status reaches `self._fetch_teams(data)`. -/
def fetch_league (resp : LeagueResponse) : Except LeagueError (List Team) :=
  if resp.status = 401 then
    .error (.privateLeague resp.errorMessage)
  else if resp.status = 404 then
    .error (.invalidLeague resp.errorMessage)
  else if resp.status ≠ 200 then
    .error (.unknownLeague ("Unknown " ++ toString resp.status ++ " Error"))
  else
    .ok (fetch_teams resp.rawTeams)

/-- The names bound at module level in `espnff/espnff.py`: the imports and the
class statements.  No module-level binding of `data` exists. -/
def moduleNames : List String :=
  ["requests", "two_step_dominance", "power_points",
   "ESPNFFException", "PrivateLeagueException", "InvalidLeagueException",
   "UnknownLeagueException", "League", "Team", "Matchup"]

/-- The local names in scope inside `League.schedule_for_sim` when its loop
header is evaluated: the parameter `self` and the local `schedule` (the loop
variables `week` and `each` are bound only later). -/
def scheduleForSimLocalNames : List String := ["self", "schedule"]

/-- The Python builtins the method body refers to; `data` is not a builtin. -/
def builtinNames : List String := ["range", "str", "len", "sum", "sorted", "zip",
  "int", "float", "enumerate"]

/-- Python errors relevant here: an unresolvable name raises `NameError`. -/
inductive PyError
  | nameError (name : String)
deriving DecidableEq, Repr

/-- Python name resolution for `League.schedule_for_sim`: locals, then module
globals, then builtins. -/
def inScheduleForSimScope (n : String) : Bool :=
  scheduleForSimLocalNames.contains n || moduleNames.contains n ||
    builtinNames.contains n

/-- One row of the simulation schedule: home owner, away owner, home score,
away score, week. -/
abbrev SimRow := String × String × ℚ × ℚ × Nat

/-- `League.schedule_for_sim`: after `schedule = []`, the loop header evaluates
`range(1, data['leaguesettings']['finalRegularSeasonMatchupPeriodId']+1)`;
evaluating the name `data` is the first step, and since `data` is bound in no
enclosing scope this raises `NameError` before any iteration.  The success
branch is unreachable (see the theorem on this definition): no value for
`data` exists to continue with, so it returns the empty schedule. -/
def schedule_for_sim (_l : League) : Except PyError (List SimRow) :=
  if inScheduleForSimScope "data" then
    .ok []
  else
    .error (.nameError "data")

/-- One side of a raw matchup as `Matchup._fetch_matchup_info` reads it:
`teamId`, `score`, and the `home` flag. -/
structure MatchupSide where
  teamId : Nat
  score : ℚ
  home : Bool
deriving DecidableEq, Repr

/-- Raw matchup data: the `teams` array and the `bye` flag. -/
structure MatchupData where
  teams : List MatchupSide
  bye : Bool
deriving DecidableEq, Repr

/-- The attributes `Matchup._fetch_matchup_info` assigns.  `home_team` and
`home_score` are always assigned a team's data; the away fields are `None` in
the final branch. -/
structure MatchupInfo where
  home_team : Nat
  home_score : ℚ
  away_team : Option Nat
  away_score : Option ℚ
deriving DecidableEq, Repr

/-- `Matchup._fetch_matchup_info`, branch for branch.  The `elif` guard in the
source is character-for-character the same test as the `if` guard, so it is
modelled as the same boolean test; list subscripts that Python would fault on
(`teams[0]`, `teams[1]` out of range) are modelled in the `Option` monad. -/
def fetch_matchup_info (d : MatchupData) : Option MatchupInfo := do
  let t0 ← d.teams[0]?
  if t0.home && !d.bye then
    let t1 ← d.teams[1]?
    pure ⟨t0.teamId, t0.score, some t1.teamId, some t1.score⟩
  else if t0.home && !d.bye then
    let t1 ← d.teams[1]?
    pure ⟨t1.teamId, t1.score, some t0.teamId, some t0.score⟩
  else
    pure ⟨t0.teamId, t0.score, none, none⟩

/-! ### Concrete example data (used to instantiate the theorems below) -/

/-- The default team used for out-of-range list access in statements. -/
def noTeam : Team := { team_id := 0, scores := [], schedule := [], mov := [] }

/-- A two-team example league: team 1 beats team 2 in both weeks. -/
def exTeam1 : Team :=
  { team_id := 1, scores := [10, 20],
    schedule := [⟨2, [5, 15]⟩, ⟨2, [5, 15]⟩], mov := [5, 5] }

/-- The second team of the example league: loses both weeks. -/
def exTeam2 : Team :=
  { team_id := 2, scores := [5, 15],
    schedule := [⟨1, [10, 20]⟩, ⟨1, [10, 20]⟩], mov := [-5, -5] }

/-- The example league's team list, in ascending team-id order. -/
def exTeams : List Team := [exTeam1, exTeam2]

/-- The example league. -/
def exLeague : League := ⟨exTeams⟩

/-- A team whose margin list is longer than its opponent list (malformed
input for the win-matrix builder). -/
def mismatchTeam : Team :=
  { team_id := 1, scores := [10, 20], schedule := [⟨2, [5]⟩], mov := [5, 7] }

/-- A team whose week-1 schedule entry is itself, as `Team._fetch_schedule`
produces on a bye week (the bye branch records the home side, which is the
team itself), with the margins the mov pass derives for it. -/
def byeTeam : Team :=
  { team_id := 1, scores := [10, 20],
    schedule := [⟨1, [10, 20]⟩, ⟨2, [10, 0]⟩], mov := [0, 20] }

/-- A raw matchup whose first team is not flagged home although a second team
is present. -/
def byeMatchup : MatchupData :=
  { teams := [⟨3, 10, false⟩, ⟨4, 7, true⟩], bye := false }

/-! ### Helper lemmas about the win-vector loop -/

lemma length_winStep (wins : List Nat) (p : ℚ × TeamRef) :
    (winStep wins p).length = wins.length := by
  unfold winStep
  split <;> simp

lemma length_foldl_winStep (pairs : List (ℚ × TeamRef)) (init : List Nat) :
    (pairs.foldl winStep init).length = init.length := by
  induction pairs generalizing init with
  | nil => rfl
  | cons p rest ih => rw [List.foldl_cons, ih, length_winStep]

lemma length_winsFor (t : Team) (week : Nat) : (winsFor t week).length = 32 := by
  unfold winsFor
  rw [length_foldl_winStep, List.length_replicate]

lemma foldl_winStep_getD (pairs : List (ℚ × TeamRef)) (init : List Nat)
    (s : Nat) (hs : s < init.length) :
    (pairs.foldl winStep init).getD s 0 =
      init.getD s 0 + pairs.countP (winAgainst s) := by
  induction pairs generalizing init with
  | nil => simp
  | cons p rest ih =>
    rw [List.foldl_cons, ih _ (by rw [length_winStep]; exact hs),
      List.countP_cons]
    unfold winStep winAgainst
    by_cases hm : 0 < p.1
    · by_cases hslot : p.2.team_id - 1 = s
      · rw [hslot]
        simp [hm, hslot, List.getD_eq_getElem?_getD, List.getElem?_set_self hs]
        omega
      · simp only [if_pos hm]
        rw [List.getD_eq_getElem?_getD, List.getElem?_set_ne hslot,
          ← List.getD_eq_getElem?_getD]
        simp [hslot]
    · simp [hm]

lemma winsFor_getD (t : Team) (week : Nat) (s : Nat) (hs : s < 32) :
    (winsFor t week).getD s 0 =
      ((t.mov.take week).zip (t.schedule.take week)).countP (winAgainst s) := by
  unfold winsFor
  rw [foldl_winStep_getD _ _ _ (by rw [List.length_replicate]; exact hs)]
  rw [List.getD_eq_getElem?_getD, List.getElem?_replicate]
  simp [hs]

/-! ### Helper lemmas about zip, take and list sums -/

lemma zip_take_take {α β : Type} (l1 : List α) (l2 : List β) (n : Nat) :
    (l1.take n).zip (l2.take n) = (l1.zip l2).take n := by
  induction l1 generalizing l2 n with
  | nil => simp
  | cons a l1 ih =>
    cases l2 with
    | nil => simp
    | cons b l2 =>
      cases n with
      | zero => simp
      | succ n => simp [List.take_succ_cons, List.zip_cons_cons, ih]

lemma getElem?_zip_some {α β : Type} {l1 : List α} {l2 : List β} {i : Nat}
    {pr : α × β} (h : (l1.zip l2)[i]? = some pr) :
    l1[i]? = some pr.1 ∧ l2[i]? = some pr.2 := by
  induction l1 generalizing l2 i with
  | nil => simp at h
  | cons a l1 ih =>
    cases l2 with
    | nil => simp at h
    | cons b l2 =>
      cases i with
      | zero =>
        rw [List.zip_cons_cons] at h
        simp at h
        simp [← h]
      | succ i =>
        rw [List.zip_cons_cons] at h
        simp only [List.getElem?_cons_succ] at h ⊢
        exact ih h

lemma sum_eq_sum_range_getD (l : List Nat) :
    l.sum = ∑ j ∈ Finset.range l.length, l.getD j 0 := by
  induction l with
  | nil => simp
  | cons a l ih =>
    rw [List.sum_cons, List.length_cons, Finset.sum_range_succ']
    simp [ih]
    omega

lemma sum_zipWith_mul (row v : List Nat) :
    (List.zipWith (· * ·) row v).sum =
      ∑ j ∈ Finset.range v.length, row.getD j 0 * v.getD j 0 := by
  induction v generalizing row with
  | nil => simp
  | cons b v ih =>
    cases row with
    | nil => simp
    | cons a row =>
      rw [List.zipWith_cons_cons, List.sum_cons, List.length_cons,
        Finset.sum_range_succ']
      simp [ih]
      omega

/-! ### Helper lemmas about the dominance calculation -/

lemma length_two_step_dominance (X : List (List Nat)) :
    (two_step_dominance X).length = X.length := by
  unfold two_step_dominance
  simp

lemma two_step_dominance_getD (X : List (List Nat)) (i : Nat)
    (hi : i < X.length) :
    (two_step_dominance X).getD i 0 = direct_score X i + indirect_score X i := by
  unfold two_step_dominance direct_score indirect_score
  have hlen : (List.zipWith (· + ·) (X.map List.sum)
      (X.map fun row => (List.zipWith (· * ·) row (X.map List.sum)).sum)).length =
      X.length := by simp
  rw [List.getD_eq_getElem _ 0 (hlen.symm ▸ hi), List.getElem_zipWith,
    List.getElem_map, List.getElem_map]
  rw [sum_zipWith_mul]
  simp only [List.length_map]
  simp only [List.getD_eq_getElem X [] hi]
  congr 1
  apply Finset.sum_congr rfl
  intro j hj
  rw [Finset.mem_range] at hj
  have h1 : (List.map List.sum X).getD j 0 = X[j].sum := by
    rw [List.getD_eq_getElem?_getD, List.getElem?_map,
      List.getElem?_eq_getElem hj]
    rfl
  rw [h1]
  unfold direct_score
  rw [List.getD_eq_getElem X [] hj]

/-! ### Helper lemmas for monotonicity of the dominance score -/

lemma winsFor_getD_mono (t : Team) {W1 W2 : Nat} (h : W1 ≤ W2) (s : Nat) :
    (winsFor t W1).getD s 0 ≤ (winsFor t W2).getD s 0 := by
  by_cases hs : s < 32
  · rw [winsFor_getD t W1 s hs, winsFor_getD t W2 s hs,
      zip_take_take, zip_take_take]
    have hW : (t.mov.zip t.schedule).take W1 =
        ((t.mov.zip t.schedule).take W2).take W1 := by
      rw [List.take_take, inf_eq_left.mpr h]
    rw [hW]
    exact List.Sublist.countP_le _ (List.take_sublist _ _)
  · have hz : ∀ W, (winsFor t W).getD s 0 = 0 := by
      intro W
      rw [List.getD_eq_getElem?_getD,
        List.getElem?_eq_none (by rw [length_winsFor]; omega)]
      rfl
    rw [hz W1, hz W2]

lemma winMatrix_getD_lt (teams : List Team) (week j : Nat)
    (hj : j < teams.length) :
    (winMatrix teams week).getD j [] = winsFor (teams.get ⟨j, hj⟩) week := by
  unfold winMatrix
  rw [List.getD_eq_getElem?_getD, List.getElem?_map,
    List.getElem?_eq_getElem hj]
  rfl

lemma winMatrix_getD_oor (teams : List Team) (week j : Nat)
    (hj : teams.length ≤ j) :
    (winMatrix teams week).getD j [] = [] := by
  unfold winMatrix
  rw [List.getD_eq_getElem?_getD,
    List.getElem?_eq_none (by rw [List.length_map]; omega)]
  rfl

lemma direct_score_winMatrix_mono (teams : List Team) {W1 W2 : Nat}
    (h : W1 ≤ W2) (j : Nat) :
    direct_score (winMatrix teams W1) j ≤ direct_score (winMatrix teams W2) j := by
  unfold direct_score
  by_cases hj : j < teams.length
  · rw [winMatrix_getD_lt teams W1 j hj, winMatrix_getD_lt teams W2 j hj,
      sum_eq_sum_range_getD, sum_eq_sum_range_getD, length_winsFor,
      length_winsFor]
    exact Finset.sum_le_sum (fun s _ => winsFor_getD_mono _ h s)
  · rw [winMatrix_getD_oor teams W1 j (by omega),
      winMatrix_getD_oor teams W2 j (by omega)]

lemma winMatrix_entry_mono (teams : List Team) {W1 W2 : Nat} (h : W1 ≤ W2)
    (i s : Nat) :
    ((winMatrix teams W1).getD i []).getD s 0 ≤
      ((winMatrix teams W2).getD i []).getD s 0 := by
  by_cases hi : i < teams.length
  · rw [winMatrix_getD_lt teams W1 i hi, winMatrix_getD_lt teams W2 i hi]
    exact winsFor_getD_mono _ h s
  · rw [winMatrix_getD_oor teams W1 i (by omega),
      winMatrix_getD_oor teams W2 i (by omega)]

/-! ### Claim theorems -/

/-- C1: for every win matrix produced for week `W`, the dominance score of
team `i` equals its direct score plus its indirect score, where
`direct_score i` sums row `i` of the matrix and `indirect_score i` sums
`matrix[i][j] * direct_score j` over all `j`. -/
theorem dominance_eq_direct_plus_indirect (teams : List Team) (week i : Nat)
    (hi : i < teams.length) :
    (two_step_dominance (winMatrix teams week)).getD i 0 =
      direct_score (winMatrix teams week) i +
        indirect_score (winMatrix teams week) i := by
  apply two_step_dominance_getD
  unfold winMatrix
  rw [List.length_map]
  exact hi

theorem dominance_eq_direct_plus_indirect_witness :
    0 < exTeams.length ∧
      (two_step_dominance (winMatrix exTeams 2)).getD 0 0 =
        direct_score (winMatrix exTeams 2) 0 +
          indirect_score (winMatrix exTeams 2) 0 :=
  ⟨by decide, dominance_eq_direct_plus_indirect exTeams 2 0 (by decide)⟩

/-- C2: for every team and week `W`, the win-matrix builder returns a vector
of fixed length 32 (independent of the team count), and, when the opponents
seen are valid league slots, the entry at each slot `s` is exactly the number
of the first `W` `(mov, opponent)` pairs whose margin is strictly positive and
whose opponent occupies slot `team_id - 1 = s`; zero and negative margins
contribute to no entry. -/
theorem winsFor_builds_win_vector (t : Team) (week : Nat)
    (hids : ∀ opp ∈ t.schedule.take week, 1 ≤ opp.team_id ∧ opp.team_id ≤ 32) :
    (winsFor t week).length = 32 ∧
      ∀ s, s < 32 →
        (winsFor t week).getD s 0 =
          ((t.mov.take week).zip (t.schedule.take week)).countP (winAgainst s) :=
  ⟨length_winsFor t week, fun s hs => winsFor_getD t week s hs⟩

theorem winsFor_builds_win_vector_witness :
    (∀ opp ∈ exTeam1.schedule.take 2, 1 ≤ opp.team_id ∧ opp.team_id ≤ 32) ∧
      ((winsFor exTeam1 2).length = 32 ∧
        ∀ s, s < 32 →
          (winsFor exTeam1 2).getD s 0 =
            ((exTeam1.mov.take 2).zip (exTeam1.schedule.take 2)).countP
              (winAgainst s)) :=
  ⟨by decide, winsFor_builds_win_vector exTeam1 2 (by decide)⟩

/-- C6: `power_rankings` leaves the league state unchanged — the team list and
every team's `mov`, `schedule` and `scores` are those of the input league —
and calling it again on the state left by the first call returns the same
ranking. -/
theorem power_rankings_pure (l : League) (week : Nat) :
    (power_rankings l week).1 = l ∧
      (power_rankings l week).1.teams = l.teams ∧
      (power_rankings l week).1.teams.map Team.mov = l.teams.map Team.mov ∧
      (power_rankings l week).1.teams.map Team.schedule =
        l.teams.map Team.schedule ∧
      (power_rankings l week).1.teams.map Team.scores =
        l.teams.map Team.scores ∧
      (power_rankings ((power_rankings l week).1) week).2 =
        (power_rankings l week).2 :=
  ⟨rfl, rfl, rfl, rfl, rfl, rfl⟩

/-- C7: `League._fetch_league` classifies every response by status code —
401 raises `PrivateLeagueException`, 404 raises `InvalidLeagueException`, any
other non-200 status raises `UnknownLeagueException` — and team construction
is reached exactly when the status is 200. -/
theorem fetch_league_classifies (resp : LeagueResponse) :
    (resp.status = 401 →
      fetch_league resp = .error (.privateLeague resp.errorMessage)) ∧
    (resp.status = 404 →
      fetch_league resp = .error (.invalidLeague resp.errorMessage)) ∧
    (resp.status ≠ 401 → resp.status ≠ 404 → resp.status ≠ 200 →
      fetch_league resp = .error (.unknownLeague
        ("Unknown " ++ toString resp.status ++ " Error"))) ∧
    (resp.status = 200 → fetch_league resp = .ok (fetch_teams resp.rawTeams)) ∧
    (∀ ts, fetch_league resp = .ok ts → resp.status = 200) := by
  by_cases h1 : resp.status = 401 <;> by_cases h2 : resp.status = 404 <;>
    by_cases h3 : resp.status = 200 <;>
    simp [fetch_league, h1, h2, h3]

theorem fetch_league_classifies_witness :
    fetch_league ⟨401, "denied", []⟩ = .error (.privateLeague "denied") ∧
    fetch_league ⟨404, "missing", []⟩ = .error (.invalidLeague "missing") ∧
    fetch_league ⟨500, "boom", []⟩ =
      .error (.unknownLeague ("Unknown " ++ toString (500 : Nat) ++ " Error")) ∧
    fetch_league ⟨200, "", []⟩ = .ok (fetch_teams []) :=
  ⟨(fetch_league_classifies _).1 rfl,
   (fetch_league_classifies _).2.1 rfl,
   (fetch_league_classifies _).2.2.1 (by decide) (by decide) (by decide),
   (fetch_league_classifies _).2.2.2.1 rfl⟩

/-- C8 counterexample: on a team whose margin list (length 2) and opponent
list (length 1) disagree, the win-vector computation raises nothing and
returns the same fixed-length vector as for the team truncated to the shorter
list — the code silently truncates via `zip` instead of failing fast. -/
theorem winsFor_no_failfast_counterexample :
    mismatchTeam.mov.length ≠ mismatchTeam.schedule.length ∧
      winsFor mismatchTeam 2 = winsFor (truncTeam mismatchTeam) 2 ∧
      (winsFor mismatchTeam 2).length = 32 :=
  ⟨by decide, by decide, by decide⟩

/-- C8 amended: for every team whose margin and opponent lists have different
lengths after truncation to the first `W` entries, the core computation raises
no error and silently truncates to the shorter list: the win vector equals the
one computed after cutting both lists to the shorter length. -/
theorem winsFor_truncates (t : Team) (week : Nat)
    (hmm : t.mov.length ≠ t.schedule.length) :
    winsFor t week = winsFor (truncTeam t) week := by
  have hz : (t.mov.zip t.schedule).take (min t.mov.length t.schedule.length) =
      t.mov.zip t.schedule := by
    rw [← List.length_zip, List.take_length]
  unfold winsFor
  simp only [truncTeam]
  rw [zip_take_take t.mov t.schedule week,
    zip_take_take (t.mov.take (min t.mov.length t.schedule.length))
      (t.schedule.take (min t.mov.length t.schedule.length)) week,
    zip_take_take t.mov t.schedule (min t.mov.length t.schedule.length), hz]

theorem winsFor_truncates_witness :
    mismatchTeam.mov.length ≠ mismatchTeam.schedule.length ∧
      winsFor mismatchTeam 2 = winsFor (truncTeam mismatchTeam) 2 :=
  ⟨by decide, winsFor_truncates mismatchTeam 2 (by decide)⟩

/-- C9: every call of `League.schedule_for_sim` fails with a `NameError` on
the unbound name `data` and can never return a schedule list. -/
theorem schedule_for_sim_name_error (l : League) :
    schedule_for_sim l = .error (.nameError "data") ∧
      ∀ rows, schedule_for_sim l ≠ .ok rows := by
  have h : inScheduleForSimScope "data" = false := by decide
  refine ⟨?_, ?_⟩ <;> simp [schedule_for_sim, h]

/-- C10: `Matchup._fetch_matchup_info` always takes `home_team` and
`home_score` from `teams[0]` (the duplicated `elif` guard makes the second
branch unreachable), and whenever `teams[0]` is not flagged home or the
matchup is a bye, the away fields are `None` even if a second team is
present. -/
theorem matchup_home_always_first (d : MatchupData) (t0 : MatchupSide)
    (h0 : d.teams[0]? = some t0) :
    (∀ info, fetch_matchup_info d = some info →
      info.home_team = t0.teamId ∧ info.home_score = t0.score) ∧
    (¬(t0.home = true ∧ d.bye = false) →
      fetch_matchup_info d = some ⟨t0.teamId, t0.score, none, none⟩) := by
  by_cases hc : t0.home = true ∧ d.bye = false
  · obtain ⟨ht, hb⟩ := hc
    constructor
    · intro info hinfo
      cases h1 : d.teams[1]? with
      | none => simp [fetch_matchup_info, h0, ht, hb, h1] at hinfo
      | some t1 =>
        simp [fetch_matchup_info, h0, ht, hb, h1] at hinfo
        rw [← hinfo]
        exact ⟨rfl, rfl⟩
    · intro hnc
      exact absurd ⟨ht, hb⟩ hnc
  · constructor
    · intro info hinfo
      simp [fetch_matchup_info, h0, hc] at hinfo
      rw [← hinfo]
      exact ⟨rfl, rfl⟩
    · intro _
      simp [fetch_matchup_info, h0, hc]

theorem matchup_home_always_first_witness :
    byeMatchup.teams[0]? = some ⟨3, 10, false⟩ ∧
      fetch_matchup_info byeMatchup = some ⟨3, 10, none, none⟩ :=
  ⟨rfl, (matchup_home_always_first byeMatchup ⟨3, 10, false⟩ rfl).2 (by simp)⟩

/-- The ranking order is transitive. -/
lemma rankLE_trans (a b c : ℚ × Team) (hab : rankLE a b = true)
    (hbc : rankLE b c = true) : rankLE a c = true := by
  unfold rankLE at hab hbc ⊢
  simp only [Bool.or_eq_true, Bool.and_eq_true, decide_eq_true_eq] at hab hbc ⊢
  rcases hab with h1 | ⟨h1, h2⟩ <;> rcases hbc with h3 | ⟨h3, h4⟩
  · exact Or.inl (h3.trans h1)
  · exact Or.inl (h3 ▸ h1)
  · exact Or.inl (h1 ▸ h3)
  · exact Or.inr ⟨h1.trans h3, h2.trans h4⟩

/-- The ranking order is total. -/
lemma rankLE_total (a b : ℚ × Team) : (rankLE a b || rankLE b a) = true := by
  unfold rankLE
  simp only [Bool.or_eq_true, Bool.and_eq_true, decide_eq_true_eq]
  rcases lt_trichotomy a.1 b.1 with h | h | h
  · exact Or.inr (Or.inl h)
  · rcases Nat.le_total a.2.team_id b.2.team_id with hid | hid
    · exact Or.inl (Or.inr ⟨h, hid⟩)
    · exact Or.inr (Or.inr ⟨h.symm, hid⟩)
  · exact Or.inl (Or.inl h)

/-- C3: for every league and week, `power_rankings` returns a sequence of
(score, team) pairs in which every later pair has a score no larger than every
earlier pair, and two entries with equal score appear in ascending `team_id`
order — provided the league's team ids are distinct (the league invariant). -/
theorem power_rankings_sorted (l : League) (week : Nat)
    (hnodup : (l.teams.map Team.team_id).Nodup) :
    ((power_rankings l week).2).Pairwise
      (fun a b => b.1 ≤ a.1 ∧ (a.1 = b.1 → a.2.team_id < b.2.team_id)) := by
  have hgoal : (power_rankings l week).2 =
      (((two_step_dominance (winMatrix (l.teams.mergeSort byId) week)).zip
        (l.teams.mergeSort byId)).map
        (fun p => (powerScore p.1 p.2 week, p.2))).mergeSort rankLE := rfl
  rw [hgoal]
  set ts := l.teams.mergeSort byId with hts
  set dom := two_step_dominance (winMatrix ts week) with hdom
  set scored := (dom.zip ts).map (fun p => (powerScore p.1 p.2 week, p.2))
    with hscored
  have hsorted : (scored.mergeSort rankLE).Pairwise
      (fun a b => rankLE a b = true) :=
    List.sorted_mergeSort rankLE_trans rankLE_total scored
  have hlendom : ts.length ≤ dom.length := by
    rw [hdom, length_two_step_dominance]
    unfold winMatrix
    rw [List.length_map]
  have hsnd : scored.map Prod.snd = ts := by
    rw [hscored, List.map_map]
    exact List.map_snd_zip dom ts hlendom
  have hidsout : ((scored.mergeSort rankLE).map
      (fun e => e.2.team_id)).Nodup := by
    have h1 : ((scored.mergeSort rankLE).map (fun e => e.2.team_id)).Perm
        (scored.map (fun e => e.2.team_id)) :=
      (List.mergeSort_perm scored rankLE).map _
    have h2 : scored.map (fun e => e.2.team_id) = ts.map Team.team_id := by
      conv_rhs => rw [← List.map_snd_zip dom ts hlendom]
      rw [hscored, List.map_map, List.map_map]
      rfl
    have h3 : (ts.map Team.team_id).Perm (l.teams.map Team.team_id) :=
      (List.mergeSort_perm l.teams byId).map _
    have hperm : (l.teams.map Team.team_id).Perm
        ((scored.mergeSort rankLE).map (fun e => e.2.team_id)) :=
      (h3.symm.trans (h2 ▸ h1.symm))
    exact hperm.nodup hnodup
  have hpne : (scored.mergeSort rankLE).Pairwise
      (fun a b => a.2.team_id ≠ b.2.team_id) :=
    List.pairwise_map.mp hidsout
  refine (hsorted.and hpne).imp ?_
  intro a b hab
  obtain ⟨hle, hne⟩ := hab
  unfold rankLE at hle
  simp only [Bool.or_eq_true, Bool.and_eq_true, decide_eq_true_eq] at hle
  rcases hle with h | ⟨h1, h2⟩
  · exact ⟨le_of_lt h, fun heq => absurd (heq ▸ h) (lt_irrefl _)⟩
  · exact ⟨le_of_eq h1.symm, fun _ => lt_of_le_of_ne h2 hne⟩

theorem power_rankings_sorted_witness :
    (exLeague.teams.map Team.team_id).Nodup ∧
      ((power_rankings exLeague 2).2).Pairwise
        (fun a b => b.1 ≤ a.1 ∧ (a.1 = b.1 → a.2.team_id < b.2.team_id)) :=
  ⟨by decide, power_rankings_sorted exLeague 2 (by decide)⟩

/-- C4: if every margin of team `A` (the `i`-th team) in the additional weeks
between `W1` and `W2` is a win (strictly positive) and none is a loss, then
`A`'s dominance score at week `W2` is at least its dominance score at `W1`.
(The proof shows the cumulative win counts can only grow with the week, so the
conclusion holds for any outcomes in the added weeks; the claim's hypothesis
is a special case.) -/
theorem dominance_monotone (teams : List Team) (i W1 W2 : Nat)
    (hi : i < teams.length) (h12 : W1 ≤ W2)
    (hwins : ∀ m ∈ ((teams.getD i noTeam).mov.drop W1).take (W2 - W1), 0 < m) :
    dominanceScore teams W1 i ≤ dominanceScore teams W2 i := by
  unfold dominanceScore
  have hlen1 : (winMatrix teams W1).length = teams.length := by
    unfold winMatrix
    rw [List.length_map]
  have hlen2 : (winMatrix teams W2).length = teams.length := by
    unfold winMatrix
    rw [List.length_map]
  rw [two_step_dominance_getD _ _ (by rw [hlen1]; exact hi),
    two_step_dominance_getD _ _ (by rw [hlen2]; exact hi)]
  unfold indirect_score
  rw [hlen1, hlen2]
  apply Nat.add_le_add
  · exact direct_score_winMatrix_mono teams h12 i
  · apply Finset.sum_le_sum
    intro j _
    exact Nat.mul_le_mul (winMatrix_entry_mono teams h12 i j)
      (direct_score_winMatrix_mono teams h12 j)

theorem dominance_monotone_witness :
    (0 < exTeams.length ∧ (1 : Nat) ≤ 2 ∧
      ∀ m ∈ ((exTeams.getD 0 noTeam).mov.drop 1).take (2 - 1), 0 < m) ∧
    dominanceScore exTeams 1 0 ≤ dominanceScore exTeams 2 0 :=
  ⟨⟨by decide, by decide, by decide⟩,
    dominance_monotone exTeams 0 1 2 (by decide) (by decide) (by decide)⟩

/-- C5: for a team whose stored margins are those the mov pass derives from
its resolved schedule, and whose schedule entries carrying its own id are the
team itself (which is what opponent resolution produces, on bye weeks
included), the slot of the team's own id in its own win vector is zero at
every week: a self-matchup has margin `0`, which increments nothing. -/
theorem own_slot_always_zero (t : Team) (week : Nat)
    (hid : 1 ≤ t.team_id) (hid32 : t.team_id ≤ 32)
    (hids : ∀ opp ∈ t.schedule, 1 ≤ opp.team_id)
    (hmov : t.mov = computeMov t.scores t.schedule)
    (hself : ∀ opp ∈ t.schedule, opp.team_id = t.team_id → opp = t.toRef) :
    (winsFor t week).getD (t.team_id - 1) 0 = 0 := by
  rw [winsFor_getD t week _ (by omega), List.countP_eq_zero]
  intro p hp
  rw [List.mem_iff_getElem?] at hp
  obtain ⟨i, hi⟩ := hp
  obtain ⟨hm, hsch⟩ := getElem?_zip_some hi
  rw [List.getElem?_take] at hm hsch
  by_cases hiw : i < week
  · rw [if_pos hiw] at hm hsch
    have hmem : p.2 ∈ t.schedule := by
      rw [List.mem_iff_getElem?]
      exact ⟨i, hsch⟩
    unfold winAgainst
    simp only [Bool.and_eq_true, decide_eq_true_eq, not_and]
    intro hpos heq
    have hone := hids p.2 hmem
    have hteq : p.2.team_id = t.team_id := by omega
    have hopp : p.2 = t.toRef := hself p.2 hmem hteq
    have hlt : i < t.schedule.length := by
      rcases Nat.lt_or_ge i t.schedule.length with h | h
      · exact h
      · rw [List.getElem?_eq_none h] at hsch
        exact absurd hsch (by simp)
    have hpd : t.schedule.getD i noRef = p.2 := by
      rw [List.getD_eq_getElem?_getD, hsch]
      rfl
    rw [hmov] at hm
    unfold computeMov at hm
    rw [List.getElem?_map, List.getElem?_range hlt] at hm
    simp only [Option.map_some', Option.some_inj] at hm
    rw [hpd, hopp] at hm
    have hzero : p.1 = 0 := by
      rw [← hm]
      exact sub_self (t.scores.getD i 0)
    rw [hzero] at hpos
    exact lt_irrefl 0 hpos
  · rw [if_neg hiw] at hm
    exact absurd hm (by simp)

theorem own_slot_always_zero_witness :
    (1 ≤ byeTeam.team_id ∧ byeTeam.team_id ≤ 32 ∧
      (∀ opp ∈ byeTeam.schedule, 1 ≤ opp.team_id) ∧
      byeTeam.mov = computeMov byeTeam.scores byeTeam.schedule ∧
      (∀ opp ∈ byeTeam.schedule, opp.team_id = byeTeam.team_id →
        opp = byeTeam.toRef)) ∧
    (winsFor byeTeam 2).getD (byeTeam.team_id - 1) 0 = 0 :=
  ⟨⟨by decide, by decide, by decide,
    by simp [byeTeam, computeMov, noRef, show List.range 2 = [0, 1] from rfl],
    by decide⟩,
    own_slot_always_zero byeTeam 2 (by decide) (by decide) (by decide)
      (by simp [byeTeam, computeMov, noRef,
        show List.range 2 = [0, 1] from rfl])
      (by decide)⟩

end Espnff
